import Mathlib

/-!
Verification of the reporting/aggregation engine of the Expense Tracker API
(src/controllers: getCategoryReport, getExpenseTrends, getExpenseSummary,
getMonthlyReport; src/utils/validation.ts: reportQuerySchema).

Modelling conventions for the shallow embedding:

* JS numbers (expense amounts, aggregates) are modelled as exact rationals ℚ.
* JS Date values / MongoDB dates are modelled as integer timestamps in
  milliseconds since the Unix epoch (UTC), type ℤ.  The calendar part
  extractors ($year, $month, $dayOfMonth) and constructors (new Date(y,m,d),
  $dateFromParts) are modelled with the standard Gregorian civil-calendar
  conversion (Hinnant algorithm) on the UTC day number.  The server is
  assumed to run in the UTC timezone, so JS local-time constructors agree
  with the UTC ones.
* MongoDB aggregation pipelines are modelled as list operations on the list
  of stored expense documents: $match is List.filter, $group is grouping by
  the distinct key values, $sort is List.insertionSort with the
  corresponding comparator (a stable sort; which stable sort is used is
  unobservable in the claims below), $limit is List.take, $push/$addToSet collect projections.
  $group emits groups in an unspecified order; the model fixes a
  deterministic order (order of List.dedup of the key list), which is then
  normalized by the $sort stages exactly as in the pipelines.
* MongoDB $round with place 2 rounds half to even (banker's rounding); it is
  modelled by mongoRound2.  JS Math.round rounds half toward +infinity,
  i.e. Math.round(x) = ⌊x + 1/2⌋; the idiom Math.round(x*100)/100 is
  modelled by roundHalfUp2.
* Mongoose documents are modelled by the structure Expense; only the fields
  the reporting engine reads are included.
-/

/-! ## Rounding -/

/-- JS Math.round(x * 100) / 100: round to 2 decimal places, halves toward
positive infinity (Math.round(x) = ⌊x + 1/2⌋). -/
def roundHalfUp2 (x : ℚ) : ℚ := (round (x * 100) : ℤ) / 100

/-- Round a rational to the nearest integer, halves to the even neighbour.
This is the rounding used by the MongoDB $round aggregation operator. -/
def roundHalfEven (y : ℚ) : ℤ :=
  if Int.fract y = 1/2 then (if ⌊y⌋ % 2 = 0 then ⌊y⌋ else ⌊y⌋ + 1) else round y

/-- MongoDB $round: [expr, 2]: round to 2 decimal places, half to even. -/
def mongoRound2 (x : ℚ) : ℚ := (roundHalfEven (x * 100) : ℤ) / 100

/-- A rational is an exact 2-decimal value (a whole number of cents). -/
def isCents (x : ℚ) : Prop := ∃ n : ℤ, x = (n : ℚ) / 100

instance : DecidablePred isCents := fun x =>
  decidable_of_iff ((x * 100).den = 1) (by
    constructor
    · intro h
      exact ⟨(x * 100).num, by
        have hx : ((x * 100).num : ℚ) = x * 100 := by
          exact_mod_cast (Rat.den_eq_one_iff _).mp h
        field_simp [hx]⟩
    · rintro ⟨n, rfl⟩
      have : (n : ℚ) / 100 * 100 = (n : ℚ) := by field_simp
      rw [this, Rat.den_intCast])

theorem isCents_add {x y : ℚ} (hx : isCents x) (hy : isCents y) : isCents (x + y) := by
  obtain ⟨a, rfl⟩ := hx
  obtain ⟨b, rfl⟩ := hy
  exact ⟨a + b, by push_cast; ring⟩

theorem isCents_zero : isCents 0 := ⟨0, by norm_num⟩

theorem isCents_sum {l : List ℚ} (h : ∀ x ∈ l, isCents x) : isCents l.sum := by
  induction l with
  | nil => simpa using isCents_zero
  | cons a l ih =>
    rw [List.sum_cons]
    exact isCents_add (h a (by simp)) (ih fun x hx => h x (by simp [hx]))

theorem isCents_roundHalfUp2 (x : ℚ) : isCents (roundHalfUp2 x) := ⟨_, rfl⟩

theorem isCents_mongoRound2 (x : ℚ) : isCents (mongoRound2 x) := ⟨_, rfl⟩

/-- Rounding to 2 places (half up) moves a value by at most half a cent. -/
theorem abs_roundHalfUp2_sub (x : ℚ) : |roundHalfUp2 x - x| ≤ 1/200 := by
  have h := abs_sub_round (x * 100)
  rw [abs_sub_comm] at h
  rw [roundHalfUp2]
  have : ((round (x * 100) : ℤ) : ℚ) / 100 - x = ((round (x * 100) : ℤ) - x * 100) / 100 := by
    ring
  rw [this, abs_div]
  rw [abs_of_pos (by norm_num : (0:ℚ) < 100)]
  linarith

/-- Half-up rounding to 2 places fixes exact 2-decimal values. -/
theorem roundHalfUp2_eq_self {x : ℚ} (h : isCents x) : roundHalfUp2 x = x := by
  obtain ⟨n, rfl⟩ := h
  have : (n : ℚ) / 100 * 100 = (n : ℚ) := by field_simp
  rw [roundHalfUp2, this, round_intCast]

/-- Half-even rounding to 2 places fixes exact 2-decimal values. -/
theorem mongoRound2_eq_self {x : ℚ} (h : isCents x) : mongoRound2 x = x := by
  obtain ⟨n, rfl⟩ := h
  have h100 : (n : ℚ) / 100 * 100 = (n : ℚ) := by field_simp
  rw [mongoRound2, roundHalfEven, h100]
  have hfr : Int.fract (n : ℚ) = 0 := Int.fract_intCast n
  rw [hfr]
  norm_num

/-! ## Calendar (Gregorian, UTC) -/

/-- Milliseconds per day (JS Date / MongoDB time unit). -/
def msPerDay : ℤ := 86400000

/-- UTC day number of a millisecond timestamp (floor division). -/
def dayOfTs (t : ℤ) : ℤ := t / msPerDay

/-- Gregorian (year, month, day) of a day number counted from 1970-01-01
(Hinnant civil-from-days algorithm, floor-division form). -/
def civil_from_days (z0 : ℤ) : ℤ × ℤ × ℤ :=
  let z := z0 + 719468
  let era := z / 146097
  let doe := z - era * 146097
  let yoe := (doe - doe / 1460 + doe / 36524 - doe / 146096) / 365
  let y := yoe + era * 400
  let doy := doe - (365 * yoe + yoe / 4 - yoe / 100)
  let mp := (5 * doy + 2) / 153
  let d := doy - (153 * mp + 2) / 5 + 1
  let m := if mp < 10 then mp + 3 else mp - 9
  (if m ≤ 2 then y + 1 else y, m, d)

/-- Day number (from 1970-01-01) of a Gregorian date (Hinnant
days-from-civil algorithm).  The formula extends linearly beyond the
nominal ranges, matching the JS Date constructor: month 13 is January of
the next year, day 0 is the last day of the previous month. -/
def days_from_civil (y m d : ℤ) : ℤ :=
  let yy := if m ≤ 2 then y - 1 else y
  let era := yy / 400
  let yoe := yy - era * 400
  let mp := (m + 9) % 12
  let doy := (153 * mp + 2) / 5 + d - 1
  let doe := yoe * 365 + yoe / 4 - yoe / 100 + doy
  era * 146097 + doe - 719468

/-- $year of a timestamp. -/
def yearOfTs (t : ℤ) : ℤ := (civil_from_days (dayOfTs t)).1

/-- $month of a timestamp (1 to 12). -/
def monthOfTs (t : ℤ) : ℤ := (civil_from_days (dayOfTs t)).2.1

/-- $dayOfMonth of a timestamp. -/
def dayOfMonthTs (t : ℤ) : ℤ := (civil_from_days (dayOfTs t)).2.2

/-- Midnight UTC timestamp of a Gregorian date: new Date(y, m-1, d) on a
UTC server, and $dateFromParts. -/
def mkDateMs (y m d : ℤ) : ℤ := days_from_civil y m d * msPerDay

/-- The month extracted from any timestamp lies in 1..12. -/
theorem monthOfTs_range (t : ℤ) : 1 ≤ monthOfTs t ∧ monthOfTs t ≤ 12 := by
  simp only [monthOfTs, civil_from_days]
  split <;> omega

/-! ## Data model -/

/-- The closed category enumeration (ExpenseCategory in models/Expense.ts). -/
inductive Category where
  | Food | Transportation | Entertainment | Healthcare | Shopping
  | Utilities | Education | Travel | Other
deriving DecidableEq, Repr, Fintype

/-- A stored expense document (fields read by the reporting engine). -/
structure Expense where
  id : ℕ
  userId : ℕ
  title : String
  amount : ℚ
  date : ℤ
  category : Category
  createdAt : ℤ
deriving DecidableEq, Repr

/-- A well-formed stored amount: positive and an exact 2-decimal value
(the expense validation schema requires positive numbers with precision 2). -/
def ValidAmount (r : Expense) : Prop := 0 < r.amount ∧ isCents r.amount

instance : DecidablePred ValidAmount := fun _ => instDecidableAnd

/-! ## Grouping ($group) -/

/-- The distinct key values of a list under a key function.  MongoDB $group
produces one output document per distinct key, in unspecified order; the
model fixes the order of List.dedup (all pipelines sort afterwards). -/
def keysOf [DecidableEq κ] (key : α → κ) (l : List α) : List κ := (l.map key).dedup

theorem mem_keysOf [DecidableEq κ] {key : α → κ} {l : List α} {k : κ} :
    k ∈ keysOf key l ↔ ∃ a ∈ l, key a = k := by
  simp [keysOf, List.mem_dedup, eq_comm]

theorem nodup_keysOf [DecidableEq κ] (key : α → κ) (l : List α) :
    (keysOf key l).Nodup := List.nodup_dedup _

theorem keysOf_nil [DecidableEq κ] (key : α → κ) : keysOf key [] = [] := rfl

/-- Grouping by a coarser key yields at most as many groups: the distinct
values of f ∘ g are the f-image of the distinct values of g. -/
theorem keysOf_comp_length_le [DecidableEq κ] [DecidableEq κ'] (f : κ → κ') (g : α → κ)
    (l : List α) : (keysOf (fun a => f (g a)) l).length ≤ (keysOf g l).length := by
  have h1 : (keysOf (fun a => f (g a)) l).length = (l.map (fun a => f (g a))).toFinset.card := by
    rw [List.card_toFinset]; rfl
  have h2 : (keysOf g l).length = (l.map g).toFinset.card := by
    rw [List.card_toFinset]; rfl
  rw [h1, h2]
  have hmap : l.map (fun a => f (g a)) = (l.map g).map f := by simp
  have himg : (List.map f (List.map g l)).toFinset = ((List.map g l).toFinset).image f := by
    ext x
    simp [List.mem_toFinset, List.mem_map, Finset.mem_image]
  rw [hmap, himg]
  exact Finset.card_image_le

/-- Mapping before deduplicating can only merge keys. -/
theorem dedup_length_map_le [DecidableEq κ] [DecidableEq κ'] (f : κ → κ') (M : List κ) :
    ((M.map f).dedup).length ≤ M.dedup.length := by
  have h1 : ((M.map f).dedup).length = (M.map f).toFinset.card :=
    (List.card_toFinset _).symm
  have h2 : M.dedup.length = M.toFinset.card := (List.card_toFinset _).symm
  rw [h1, h2]
  have himg : (M.map f).toFinset = M.toFinset.image f := by
    ext x
    simp
  rw [himg]
  exact Finset.card_image_le

/-! ## Category report (getCategoryReport, controllers/reportController 210-306) -/

/-- Sum of the amount field over a list of documents ($sum: "$amount"). -/
def sumAmounts (l : List Expense) : ℚ := (l.map (·.amount)).sum

/-- $match stage of the category pipeline: one userId, date in
[startDate, endDate] (both $gte and $lte, hence inclusive bounds). -/
def catMatch (u : ℕ) (s e : ℤ) (r : Expense) : Bool :=
  decide (r.userId = u ∧ s ≤ r.date ∧ r.date ≤ e)

def catMatched (u : ℕ) (s e : ℤ) (recs : List Expense) : List Expense :=
  recs.filter (catMatch u s e)

/-- One $group output document of the category pipeline (before the
percentage is added in JS). -/
structure CatGroup where
  category : Category
  totalAmount : ℚ
  count : ℕ
  avgAmount : ℚ
  expenses : List (ℕ × String × ℚ × ℤ)
deriving DecidableEq, Repr

/-- A category breakdown entry: the group document spread together with the
percentage field added in JS. -/
structure CatEntry extends CatGroup where
  percentage : ℚ
deriving DecidableEq, Repr

/-- The categoryTotals pipeline: $match, $group by category ($sum $amount,
$sum 1, $avg $amount, $push of the id/title/amount/date projection),
$project with $round 2 on totalAmount and avgAmount, $sort totalAmount
descending. -/
def categoryTotals (u : ℕ) (s e : ℤ) (recs : List Expense) : List CatGroup :=
  let matched := catMatched u s e recs
  let grouped := (keysOf (·.category) matched).map (fun c =>
    let g := matched.filter (fun r => decide (r.category = c))
    { category := c
      totalAmount := mongoRound2 (sumAmounts g)
      count := g.length
      avgAmount := mongoRound2 (sumAmounts g / g.length)
      expenses := g.map (fun r => (r.id, r.title, r.amount, r.date)) })
  List.insertionSort (fun a b => b.totalAmount ≤ a.totalAmount) grouped

structure CatSummary where
  grandTotal : ℚ
  totalCount : ℕ
  avgExpense : ℚ
  categoriesCount : ℕ
deriving DecidableEq, Repr

structure CatReport where
  startDate : ℤ
  endDate : ℤ
  summary : CatSummary
  categoryBreakdown : List CatEntry
deriving DecidableEq, Repr

/-- The JS part of getCategoryReport after the pipeline: grandTotal and
totalCount by reduce over the pipeline output, percentage per category
(guarded by grandTotal > 0), summary with Math.round(x*100)/100 rounding
and the totalCount > 0 guard on avgExpense. -/
def categoryReportData (u : ℕ) (s e : ℤ) (recs : List Expense) : CatReport :=
  let ct := categoryTotals u s e recs
  let grandTotal := (ct.map (·.totalAmount)).sum
  let totalCount := (ct.map (·.count)).sum
  let breakdown := ct.map (fun c =>
    { toCatGroup := c
      percentage := if 0 < grandTotal then roundHalfUp2 (c.totalAmount / grandTotal * 100)
                    else 0 })
  { startDate := s
    endDate := e
    summary := { grandTotal := roundHalfUp2 grandTotal
                 totalCount := totalCount
                 avgExpense := if 0 < totalCount then roundHalfUp2 (grandTotal / totalCount)
                               else 0
                 categoriesCount := ct.length }
    categoryBreakdown := breakdown }

/-- getCategoryReport including the reportQuerySchema validation: startDate
and endDate are both required, and endDate must be at least startDate
(Joi min(ref startDate)); a validation failure is a 400 response returned
before the pipeline runs, modelled as Except.error. -/
def getCategoryReport (u : ℕ) (startDate endDate : Option ℤ) (recs : List Expense) :
    Except Unit CatReport :=
  match startDate, endDate with
  | some s, some e => if e < s then .error () else .ok (categoryReportData u s e recs)
  | _, _ => .error ()

/-! ## Trend report (getExpenseTrends, controllers/reportController 311-412) -/

/-- parseInt(req.query.days) || 30: absent or non-numeric input is none,
and a parsed 0 is falsy, so both fall back to 30. -/
def effDays (daysParam : Option ℤ) : ℤ :=
  match daysParam with
  | some d => if d = 0 then 30 else d
  | none => 30

/-- $match stage of both trend pipelines: one userId, date ≥ startDate. -/
def trendMatch (u : ℕ) (start : ℤ) (r : Expense) : Bool :=
  decide (r.userId = u ∧ start ≤ r.date)

def trendMatched (u : ℕ) (start : ℤ) (recs : List Expense) : List Expense :=
  recs.filter (trendMatch u start)

/-- The $group key of the daily pipeline: ($year, $month, $dayOfMonth) of
the date. -/
def dayKey (r : Expense) : ℤ × ℤ × ℤ :=
  (yearOfTs r.date, monthOfTs r.date, dayOfMonthTs r.date)

structure DayEntry where
  date : ℤ
  totalAmount : ℚ
  count : ℕ
  categoriesCount : ℕ
deriving DecidableEq, Repr

/-- The dailyTrends pipeline: $match, $group by (year, month, day) with
$sum, $sum 1 and $addToSet of categories, $project rebuilding the date
with $dateFromParts, $round 2 on the total, $size of the category set,
$sort by date ascending. -/
def dailyTrendsOf (u : ℕ) (start : ℤ) (recs : List Expense) : List DayEntry :=
  let matched := trendMatched u start recs
  let grouped := (keysOf dayKey matched).map (fun k =>
    let g := matched.filter (fun r => decide (dayKey r = k))
    { date := mkDateMs k.1 k.2.1 k.2.2
      totalAmount := mongoRound2 (sumAmounts g)
      count := g.length
      categoriesCount := (keysOf (·.category) g).length })
  List.insertionSort (fun a b => a.date ≤ b.date) grouped

structure TopCatEntry where
  category : Category
  totalAmount : ℚ
  count : ℕ
deriving DecidableEq, Repr

/-- The top-categories pipeline shape shared by getExpenseTrends (over the
window-matched documents) and getExpenseSummary (over all the user
documents): $group by category, $round 2 on the total, $sort total
descending, $limit 5. -/
def topCategoriesFrom (matched : List Expense) : List TopCatEntry :=
  let grouped := (keysOf (·.category) matched).map (fun c =>
    let g := matched.filter (fun r => decide (r.category = c))
    { category := c
      totalAmount := mongoRound2 (sumAmounts g)
      count := g.length })
  (List.insertionSort (fun a b => b.totalAmount ≤ a.totalAmount) grouped).take 5

structure TrendSummary where
  periodTotal : ℚ
  periodCount : ℕ
  dailyAverage : ℚ
  activeDays : ℕ
deriving DecidableEq, Repr

structure TrendReport where
  days : ℤ
  startDate : ℤ
  endDate : ℤ
  summary : TrendSummary
  dailyTrends : List DayEntry
  topCategories : List TopCatEntry
deriving DecidableEq, Repr

/-- getExpenseTrends: the window start is now minus days calendar days
(setDate(getDate() - days); on a UTC server this is now - days*msPerDay,
keeping the time of day: the source does not align to midnight).  The
summary reduces over the daily pipeline output; dailyAverage divides the
unrounded period total by the number of active days when it is positive. -/
def getExpenseTrends (u : ℕ) (daysParam : Option ℤ) (now : ℤ) (recs : List Expense) :
    TrendReport :=
  let days := effDays daysParam
  let startDate := now - days * msPerDay
  let dt := dailyTrendsOf u startDate recs
  let tc := topCategoriesFrom (trendMatched u startDate recs)
  let periodTotal := (dt.map (·.totalAmount)).sum
  let periodCount := (dt.map (·.count)).sum
  let dailyAverage := if 0 < dt.length then periodTotal / (dt.length : ℚ) else 0
  { days := days
    startDate := startDate
    endDate := now
    summary := { periodTotal := roundHalfUp2 periodTotal
                 periodCount := periodCount
                 dailyAverage := roundHalfUp2 dailyAverage
                 activeDays := dt.length }
    dailyTrends := dt
    topCategories := tc }

/-! ## Monthly report (getMonthlyReport, controllers/reportController 543-634) -/

/-- parseInt(req.query.year) || current year: absent or non-numeric input
is none, and a parsed 0 is falsy, so both fall back to the current year. -/
def effYear (yearParam : Option ℤ) (now : ℤ) : ℤ :=
  match yearParam with
  | some y => if y = 0 then yearOfTs now else y
  | none => yearOfTs now

/-- $match stage of the monthly pipeline: one userId, date between
new Date(year, 0, 1) and new Date(year, 11, 31), i.e. between the UTC
midnights of January 1 and December 31 (both inclusive). -/
def monthlyMatch (u : ℕ) (year : ℤ) (r : Expense) : Bool :=
  decide (r.userId = u ∧ mkDateMs year 1 1 ≤ r.date ∧ r.date ≤ mkDateMs year 12 31)

def monthlyMatched (u : ℕ) (year : ℤ) (recs : List Expense) : List Expense :=
  recs.filter (monthlyMatch u year)

structure MonthGroup where
  month : ℤ
  totalAmount : ℚ
  count : ℕ
  avgAmount : ℚ
deriving DecidableEq, Repr

/-- The monthlyTotals pipeline: $match, $group by $month of the date,
$project with $round 2 on totalAmount and avgAmount, $sort month
ascending. -/
def monthlyTotals (u : ℕ) (year : ℤ) (recs : List Expense) : List MonthGroup :=
  let matched := monthlyMatched u year recs
  let grouped := (keysOf (fun r => monthOfTs r.date) matched).map (fun m =>
    let g := matched.filter (fun r => decide (monthOfTs r.date = m))
    { month := m
      totalAmount := mongoRound2 (sumAmounts g)
      count := g.length
      avgAmount := mongoRound2 (sumAmounts g / g.length) })
  List.insertionSort (fun a b => a.month ≤ b.month) grouped

/-- The English month names, in calendar order (source lines 584-597). -/
def monthNames : List String :=
  ["January", "February", "March", "April", "May", "June",
   "July", "August", "September", "October", "November", "December"]

structure MonthEntry where
  month : ℤ
  monthName : String
  totalAmount : ℚ
  count : ℕ
  avgAmount : ℚ
deriving DecidableEq, Repr

/-- Gap filling (source lines 599-608): the source maps over the 12 month
names with their index; the model iterates the index range of monthNames
and reads the name at each index.  Each entry looks up the pipeline output
for month index+1 and falls back to zero values. -/
def completeMonthlyData (mt : List MonthGroup) : List MonthEntry :=
  (List.range monthNames.length).map (fun (index : ℕ) =>
    match mt.find? (fun m => decide (m.month = (index : ℤ) + 1)) with
    | some monthData =>
      { month := (index : ℤ) + 1
        monthName := monthNames.getD index ""
        totalAmount := monthData.totalAmount
        count := monthData.count
        avgAmount := monthData.avgAmount }
    | none =>
      { month := (index : ℤ) + 1
        monthName := monthNames.getD index ""
        totalAmount := 0
        count := 0
        avgAmount := 0 })

structure MonthlySummary where
  yearlyTotal : ℚ
  yearlyCount : ℕ
  monthlyAverage : ℚ
  activeMonths : ℕ
deriving DecidableEq, Repr

structure MonthlyReport where
  year : ℤ
  summary : MonthlySummary
  monthlyBreakdown : List MonthEntry
deriving DecidableEq, Repr

/-- getMonthlyReport: yearly totals reduce over the pipeline output (not
over the gap-filled list), monthlyAverage divides by the constant 12,
activeMonths is the number of pipeline groups. -/
def getMonthlyReport (u : ℕ) (yearParam : Option ℤ) (now : ℤ) (recs : List Expense) :
    MonthlyReport :=
  let year := effYear yearParam now
  let mt := monthlyTotals u year recs
  let yearlyTotal := (mt.map (·.totalAmount)).sum
  let yearlyCount := (mt.map (·.count)).sum
  { year := year
    summary := { yearlyTotal := roundHalfUp2 yearlyTotal
                 yearlyCount := yearlyCount
                 monthlyAverage := roundHalfUp2 (yearlyTotal / 12)
                 activeMonths := mt.length }
    monthlyBreakdown := completeMonthlyData mt }

/-! ## Summary report (getExpenseSummary, controllers/reportController 417-538) -/

structure Overview where
  totalExpenses : ℚ
  totalCount : ℕ
  averageExpense : ℚ
  minExpense : ℚ
  maxExpense : ℚ
deriving DecidableEq, Repr

structure CurrentMonth where
  totalAmount : ℚ
  count : ℕ
deriving DecidableEq, Repr

structure SummaryReport where
  overview : Overview
  currentMonth : CurrentMonth
  topCategories : List TopCatEntry
  recentExpenses : List (String × ℚ × ℤ × Category)
deriving DecidableEq, Repr

/-- $match of the all-documents aggregations: one userId only. -/
def userMatch (u : ℕ) (r : Expense) : Bool := decide (r.userId = u)

def userMatched (u : ℕ) (recs : List Expense) : List Expense :=
  recs.filter (userMatch u)

/-- $match of the current-month aggregation: one userId, date between
new Date(Y, M, 1) and new Date(Y, M+1, 0) (the first and last UTC midnight
of the current calendar month at request time). -/
def curMonthMatch (u : ℕ) (now : ℤ) (r : Expense) : Bool :=
  decide (r.userId = u ∧ mkDateMs (yearOfTs now) (monthOfTs now) 1 ≤ r.date ∧
    r.date ≤ mkDateMs (yearOfTs now) (monthOfTs now + 1) 0)

def curMonthMatched (u : ℕ) (now : ℤ) (recs : List Expense) : List Expense :=
  recs.filter (curMonthMatch u now)

/-- getExpenseSummary: four independent aggregations over the documents of
one user; the _id: null groups produce no document when nothing matches,
in which case the JS fallback object of zeros is used.  The overview
fields are rounded with Math.round(x*100)/100; recent expenses are the 5
most recently created documents projected to title/amount/date/category. -/
def getExpenseSummary (u : ℕ) (now : ℤ) (recs : List Expense) : SummaryReport :=
  let mine := userMatched u recs
  let amounts := mine.map (·.amount)
  let overview : Overview :=
    if mine.length = 0 then
      { totalExpenses := roundHalfUp2 0, totalCount := 0, averageExpense := roundHalfUp2 0
        minExpense := roundHalfUp2 0, maxExpense := roundHalfUp2 0 }
    else
      { totalExpenses := roundHalfUp2 amounts.sum
        totalCount := mine.length
        averageExpense := roundHalfUp2 (amounts.sum / (mine.length : ℚ))
        minExpense := roundHalfUp2 ((amounts.min?).getD 0)
        maxExpense := roundHalfUp2 ((amounts.max?).getD 0) }
  let cm := curMonthMatched u now recs
  let currentMonth : CurrentMonth :=
    if cm.length = 0 then { totalAmount := roundHalfUp2 0, count := 0 }
    else { totalAmount := roundHalfUp2 (sumAmounts cm), count := cm.length }
  { overview := overview
    currentMonth := currentMonth
    topCategories := topCategoriesFrom mine
    recentExpenses :=
      ((List.insertionSort (fun a b => b.createdAt ≤ a.createdAt) mine).take 5).map
        (fun r => (r.title, r.amount, r.date, r.category)) }

/-! ## General lemmas -/

/-- Filtering with a predicate that implies an earlier filter collapses the
two filters into one. -/
theorem filter_filter_of_imp {α : Type} {p q : α → Bool} (h : ∀ a, p a = true → q a = true)
    (l : List α) : (l.filter q).filter p = l.filter p := by
  rw [List.filter_filter]
  apply List.filter_congr
  intro a _
  cases hpa : p a
  · simp
  · simp [h a hpa]

/-- A sum changes by at most length times the per-element bound. -/
theorem abs_sum_map_sub_le {α : Type} (l : List α) (f g : α → ℚ) (c : ℚ)
    (h : ∀ a ∈ l, |f a - g a| ≤ c) :
    |(l.map f).sum - (l.map g).sum| ≤ l.length * c := by
  induction l with
  | nil => simp
  | cons a l ih =>
    have ha := h a (by simp)
    have hl := ih (fun a ha => h a (by simp [ha]))
    have : (((a :: l).map f).sum - ((a :: l).map g).sum) =
        (f a - g a) + ((l.map f).sum - (l.map g).sum) := by
      simp [List.sum_cons]; ring
    rw [this]
    calc |(f a - g a) + ((l.map f).sum - (l.map g).sum)|
        ≤ |f a - g a| + |(l.map f).sum - (l.map g).sum| := abs_add _ _
      _ ≤ c + l.length * c := add_le_add ha hl
      _ = (a :: l).length * c := by simp [List.length_cons]; ring

/-- A list of distinct integers inside [a, b] has at most b - a + 1
elements. -/
theorem length_le_of_nodup_mem_Icc {L : List ℤ} {a b : ℤ} (hnd : L.Nodup)
    (hmem : ∀ x ∈ L, a ≤ x ∧ x ≤ b) : (L.length : ℤ) ≤ max (b - a + 1) 0 := by
  have hsub : L.toFinset ⊆ Finset.Icc a b := by
    intro x hx
    rw [List.mem_toFinset] at hx
    exact Finset.mem_Icc.mpr (hmem x hx)
  have hcard := Finset.card_le_card hsub
  rw [List.toFinset_card_of_nodup hnd, Int.card_Icc] at hcard
  omega

/-! ## The match predicates refine the user filter (claim C1 machinery) -/

theorem catMatched_userMatched (u : ℕ) (s e : ℤ) (recs : List Expense) :
    catMatched u s e (userMatched u recs) = catMatched u s e recs :=
  filter_filter_of_imp (fun r hr => by
    simp only [catMatch, decide_eq_true_eq] at hr
    simp [userMatch, hr.1]) recs

theorem trendMatched_userMatched (u : ℕ) (start : ℤ) (recs : List Expense) :
    trendMatched u start (userMatched u recs) = trendMatched u start recs :=
  filter_filter_of_imp (fun r hr => by
    simp only [trendMatch, decide_eq_true_eq] at hr
    simp [userMatch, hr.1]) recs

theorem monthlyMatched_userMatched (u : ℕ) (year : ℤ) (recs : List Expense) :
    monthlyMatched u year (userMatched u recs) = monthlyMatched u year recs :=
  filter_filter_of_imp (fun r hr => by
    simp only [monthlyMatch, decide_eq_true_eq] at hr
    simp [userMatch, hr.1]) recs

theorem curMonthMatched_userMatched (u : ℕ) (now : ℤ) (recs : List Expense) :
    curMonthMatched u now (userMatched u recs) = curMonthMatched u now recs :=
  filter_filter_of_imp (fun r hr => by
    simp only [curMonthMatch, decide_eq_true_eq] at hr
    simp [userMatch, hr.1]) recs

theorem userMatched_idem (u : ℕ) (recs : List Expense) :
    userMatched u (userMatched u recs) = userMatched u recs :=
  filter_filter_of_imp (fun _ h => h) recs

/-- Claim C1: none of the four report operations invoked for a user is
influenced by records owned by other users: each report computed over the
full record set equals the same report computed over only the records of
the requesting user (every pipeline begins with a $match on exactly this
userId). -/
theorem reports_user_isolated (u : ℕ) (sd ed dp yp : Option ℤ) (now : ℤ)
    (recs : List Expense) :
    getCategoryReport u sd ed recs = getCategoryReport u sd ed (userMatched u recs) ∧
    getMonthlyReport u yp now recs = getMonthlyReport u yp now (userMatched u recs) ∧
    getExpenseTrends u dp now recs = getExpenseTrends u dp now (userMatched u recs) ∧
    getExpenseSummary u now recs = getExpenseSummary u now (userMatched u recs) := by
  refine ⟨?_, ?_, ?_, ?_⟩
  · match sd, ed with
    | some s, some e =>
      simp only [getCategoryReport]
      split
      · rfl
      · simp only [categoryReportData, categoryTotals, catMatched_userMatched]
    | none, _ => rfl
    | some _, none => rfl
  · simp only [getMonthlyReport, monthlyTotals, monthlyMatched_userMatched]
  · simp only [getExpenseTrends, dailyTrendsOf, topCategoriesFrom, trendMatched_userMatched]
  · simp only [getExpenseSummary, topCategoriesFrom, userMatched_idem,
      curMonthMatched_userMatched]

/-- Claim C5: a categoryReport request with a missing startDate, a missing
endDate, or endDate strictly before startDate is rejected by the
validation schema before the pipeline runs: the result is the validation
error, and it does not depend on the record store at all. -/
theorem categoryReport_validation_first (u : ℕ) (sd ed : Option ℤ)
    (h : sd = none ∨ ed = none ∨ ∃ s e, sd = some s ∧ ed = some e ∧ e < s)
    (recs recs2 : List Expense) :
    getCategoryReport u sd ed recs = Except.error () ∧
    getCategoryReport u sd ed recs = getCategoryReport u sd ed recs2 := by
  have herr : ∀ rs : List Expense, getCategoryReport u sd ed rs = Except.error () := by
    intro rs
    rcases h with rfl | h
    · cases ed <;> rfl
    rcases h with rfl | ⟨s, e, rfl, rfl, hlt⟩
    · cases sd <;> rfl
    · simp [getCategoryReport, hlt]
  exact ⟨herr recs, (herr recs).trans (herr recs2).symm⟩

/-- A sample stored expense document, used to instantiate witnesses. -/
def sampleExpense : Expense :=
  { id := 7, userId := 3, title := "bus", amount := 5/2, date := 86400000
    category := Category.Transportation, createdAt := 11 }

/-- Witness for claim C5 at a concrete invalid query: endDate 3 strictly
before startDate 5, two different record stores. -/
theorem categoryReport_validation_first_witness :
    getCategoryReport 0 (some 5) (some 3) [] = Except.error () ∧
    getCategoryReport 0 (some 5) (some 3) [] =
      getCategoryReport 0 (some 5) (some 3) [sampleExpense] :=
  categoryReport_validation_first 0 (some 5) (some 3)
    (Or.inr (Or.inr ⟨5, 3, rfl, rfl, by norm_num⟩)) [] [sampleExpense]

/-! ## Monthly grouping facts -/

/-- Every monthly pipeline group is the group document of one of the
distinct month keys of the matched records. -/
theorem monthlyTotals_mem_repr {u : ℕ} {year : ℤ} {recs : List Expense} {g : MonthGroup}
    (hg : g ∈ monthlyTotals u year recs) :
    ∃ m ∈ keysOf (fun r => monthOfTs r.date) (monthlyMatched u year recs),
      g = { month := m
            totalAmount := mongoRound2 (sumAmounts ((monthlyMatched u year recs).filter
              (fun r => decide (monthOfTs r.date = m))))
            count := ((monthlyMatched u year recs).filter
              (fun r => decide (monthOfTs r.date = m))).length
            avgAmount := mongoRound2 (sumAmounts ((monthlyMatched u year recs).filter
              (fun r => decide (monthOfTs r.date = m))) /
              (((monthlyMatched u year recs).filter
                (fun r => decide (monthOfTs r.date = m))).length : ℚ)) } := by
  simp only [monthlyTotals] at hg
  rw [List.mem_insertionSort] at hg
  obtain ⟨m, hm, rfl⟩ := List.mem_map.mp hg
  exact ⟨m, hm, rfl⟩

/-- Every monthly pipeline group carries the month of one matched record
and a positive count. -/
theorem monthlyTotals_mem_spec {u : ℕ} {year : ℤ} {recs : List Expense} {g : MonthGroup}
    (hg : g ∈ monthlyTotals u year recs) :
    (∃ r ∈ monthlyMatched u year recs, monthOfTs r.date = g.month) ∧ 0 < g.count := by
  obtain ⟨m, hm, rfl⟩ := monthlyTotals_mem_repr hg
  obtain ⟨r, hr, hkey⟩ := mem_keysOf.mp hm
  refine ⟨⟨r, hr, hkey⟩, ?_⟩
  have hmem : r ∈ (monthlyMatched u year recs).filter
      (fun r => decide (monthOfTs r.date = m)) := by
    rw [List.mem_filter]
    exact ⟨hr, by simp [hkey]⟩
  simp only []
  exact List.length_pos.mpr (fun hnil => by simp [hnil] at hmem)

/-- Mapping a projection over a mapped construction that the projection
inverts gives back the original list. -/
theorem map_map_eq_self {α β : Type} (L : List α) (F : α → β) (pr : β → α)
    (h : ∀ m, pr (F m) = m) : (L.map F).map pr = L := by
  induction L with
  | nil => rfl
  | cons a l ih => simp [h, ih]

/-- The month keys of the monthly pipeline output are distinct. -/
theorem monthlyTotals_months_nodup (u : ℕ) (year : ℤ) (recs : List Expense) :
    ((monthlyTotals u year recs).map (fun g => g.month)).Nodup := by
  have hperm : (monthlyTotals u year recs).Perm
      ((keysOf (fun r => monthOfTs r.date) (monthlyMatched u year recs)).map (fun m =>
        ({ month := m
           totalAmount := mongoRound2 (sumAmounts ((monthlyMatched u year recs).filter
             (fun r => decide (monthOfTs r.date = m))))
           count := ((monthlyMatched u year recs).filter
             (fun r => decide (monthOfTs r.date = m))).length
           avgAmount := mongoRound2 (sumAmounts ((monthlyMatched u year recs).filter
             (fun r => decide (monthOfTs r.date = m))) /
             (((monthlyMatched u year recs).filter
               (fun r => decide (monthOfTs r.date = m))).length : ℚ)) } : MonthGroup))) := by
    simp only [monthlyTotals]
    exact List.perm_insertionSort _ _
  have hmapped := hperm.map (fun g : MonthGroup => g.month)
  rw [map_map_eq_self _ _ (fun g : MonthGroup => g.month) (fun m => rfl)] at hmapped
  exact hmapped.nodup_iff.mpr (nodup_keysOf _ _)

/-! ## Claim C3: monthly breakdown structure -/

/-- The month field of a gap-filled entry is its index plus one, whether or
not the month has data. -/
theorem completeMonthlyData_month (mt : List MonthGroup) (i : ℕ) :
    ((match mt.find? (fun m => decide (m.month = (i : ℤ) + 1)) with
      | some monthData =>
        ({ month := (i : ℤ) + 1, monthName := monthNames.getD i ""
           totalAmount := monthData.totalAmount, count := monthData.count
           avgAmount := monthData.avgAmount } : MonthEntry)
      | none =>
        ({ month := (i : ℤ) + 1, monthName := monthNames.getD i ""
           totalAmount := 0, count := 0, avgAmount := 0 } : MonthEntry)) : MonthEntry) =
      { month := (i : ℤ) + 1, monthName := monthNames.getD i ""
        totalAmount := ((mt.find? (fun m => decide (m.month = (i : ℤ) + 1))).map
          (fun g => g.totalAmount)).getD 0
        count := ((mt.find? (fun m => decide (m.month = (i : ℤ) + 1))).map
          (fun g => g.count)).getD 0
        avgAmount := ((mt.find? (fun m => decide (m.month = (i : ℤ) + 1))).map
          (fun g => g.avgAmount)).getD 0 } := by
  cases h : mt.find? (fun m => decide (m.month = (i : ℤ) + 1)) <;> simp [h]

/-- Claim C3: for every user, year parameter, request time and record set,
the monthly breakdown has exactly 12 entries carrying the months 1 to 12
in ascending order and the English month names, and every month with no
matching record reports totalAmount = 0, count = 0, avgAmount = 0. -/
theorem monthlyBreakdown_gap_filled (u : ℕ) (yp : Option ℤ) (now : ℤ) (recs : List Expense) :
    (getMonthlyReport u yp now recs).monthlyBreakdown.map (fun e => e.month) =
      [1, 2, 3, 4, 5, 6, 7, 8, 9, 10, 11, 12] ∧
    (getMonthlyReport u yp now recs).monthlyBreakdown.map (fun e => e.monthName) =
      monthNames ∧
    ∀ e ∈ (getMonthlyReport u yp now recs).monthlyBreakdown,
      (∀ r ∈ monthlyMatched u (effYear yp now) recs, monthOfTs r.date ≠ e.month) →
      e.totalAmount = 0 ∧ e.count = 0 ∧ e.avgAmount = 0 := by
  simp only [getMonthlyReport]
  refine ⟨?_, ?_, ?_⟩
  · rw [completeMonthlyData, List.map_map]
    have : (List.range monthNames.length).map
        ((fun e : MonthEntry => e.month) ∘ (fun (index : ℕ) =>
          (match (monthlyTotals u (effYear yp now) recs).find?
              (fun m => decide (m.month = (index : ℤ) + 1)) with
            | some monthData =>
              ({ month := (index : ℤ) + 1, monthName := monthNames.getD index ""
                 totalAmount := monthData.totalAmount, count := monthData.count
                 avgAmount := monthData.avgAmount } : MonthEntry)
            | none =>
              ({ month := (index : ℤ) + 1, monthName := monthNames.getD index ""
                 totalAmount := 0, count := 0, avgAmount := 0 } : MonthEntry)))) =
        (List.range monthNames.length).map (fun (index : ℕ) => (index : ℤ) + 1) := by
      apply List.map_congr_left
      intro i _
      simp only [Function.comp]
      cases h : (monthlyTotals u (effYear yp now) recs).find?
          (fun m => decide (m.month = (i : ℤ) + 1)) <;> simp [h]
    rw [this]
    decide
  · rw [completeMonthlyData, List.map_map]
    have : (List.range monthNames.length).map
        ((fun e : MonthEntry => e.monthName) ∘ (fun (index : ℕ) =>
          (match (monthlyTotals u (effYear yp now) recs).find?
              (fun m => decide (m.month = (index : ℤ) + 1)) with
            | some monthData =>
              ({ month := (index : ℤ) + 1, monthName := monthNames.getD index ""
                 totalAmount := monthData.totalAmount, count := monthData.count
                 avgAmount := monthData.avgAmount } : MonthEntry)
            | none =>
              ({ month := (index : ℤ) + 1, monthName := monthNames.getD index ""
                 totalAmount := 0, count := 0, avgAmount := 0 } : MonthEntry)))) =
        (List.range monthNames.length).map (fun index => monthNames.getD index "") := by
      apply List.map_congr_left
      intro i _
      simp only [Function.comp]
      cases h : (monthlyTotals u (effYear yp now) recs).find?
          (fun m => decide (m.month = (i : ℤ) + 1)) <;> simp [h]
    rw [this]
    decide
  · intro e he hno
    rw [completeMonthlyData] at he
    obtain ⟨i, _, rfl⟩ := List.mem_map.mp he
    have hfind : (monthlyTotals u (effYear yp now) recs).find?
        (fun m => decide (m.month = (i : ℤ) + 1)) = none := by
      rw [List.find?_eq_none]
      intro g hg
      simp only [decide_eq_true_eq]
      intro hgm
      obtain ⟨⟨r, hr, hrm⟩, _⟩ := monthlyTotals_mem_spec hg
      have hem : ((match (monthlyTotals u (effYear yp now) recs).find?
          (fun m => decide (m.month = (i : ℤ) + 1)) with
        | some monthData =>
          ({ month := (i : ℤ) + 1, monthName := monthNames.getD i ""
             totalAmount := monthData.totalAmount, count := monthData.count
             avgAmount := monthData.avgAmount } : MonthEntry)
        | none =>
          ({ month := (i : ℤ) + 1, monthName := monthNames.getD i ""
             totalAmount := 0, count := 0, avgAmount := 0 } : MonthEntry)) : MonthEntry).month =
          (i : ℤ) + 1 := by
        cases h : (monthlyTotals u (effYear yp now) recs).find?
            (fun m => decide (m.month = (i : ℤ) + 1)) <;> simp [h]
      exact hno r hr (by rw [hrm, hgm]; exact hem.symm)
    rw [hfind]
    exact ⟨rfl, rfl, rfl⟩

/-! ## Claim C6: monthly average and active months -/

/-- Counting the indices of 1..12 that hit a distinct list of months inside
1..12 recovers the length of that list. -/
theorem countP_range12_mem (M : List ℤ) (hnd : M.Nodup) (hsub : ∀ m ∈ M, 1 ≤ m ∧ m ≤ 12) :
    (List.range 12).countP (fun i => decide (((i : ℕ) : ℤ) + 1 ∈ M)) = M.length := by
  rw [List.countP_eq_length_filter]
  have hinj : Function.Injective (fun i : ℕ => (i : ℤ) + 1) := by
    intro a b hab
    simp only [] at hab
    omega
  have hndF : (((List.range 12).filter (fun i => decide (((i : ℕ) : ℤ) + 1 ∈ M))).map
      (fun i : ℕ => (i : ℤ) + 1)).Nodup :=
    (List.Nodup.filter _ (List.nodup_range 12)).map hinj
  have hmem : ∀ x, x ∈ ((List.range 12).filter
      (fun i => decide (((i : ℕ) : ℤ) + 1 ∈ M))).map (fun i : ℕ => (i : ℤ) + 1) ↔ x ∈ M := by
    intro x
    constructor
    · intro hx
      obtain ⟨i, hiF, rfl⟩ := List.mem_map.mp hx
      have := (List.mem_filter.mp hiF).2
      simpa using this
    · intro hx
      obtain ⟨h1, h12⟩ := hsub x hx
      have hxx : (((x - 1).toNat : ℕ) : ℤ) + 1 = x := by omega
      refine List.mem_map.mpr ⟨(x - 1).toNat, List.mem_filter.mpr ⟨?_, ?_⟩, hxx⟩
      · exact List.mem_range.mpr (by omega)
      · simp only [hxx, decide_eq_true_eq]
        exact hx
  have hperm := (List.perm_ext_iff_of_nodup hndF hnd).mpr hmem
  have hlen := hperm.length_eq
  simpa using hlen

/-- Claim C6: the emitted monthlyAverage equals the 2-place half-up rounding
of yearlyTotal / 12 (the divisor is the constant 12), and activeMonths
equals the number of breakdown months whose count is positive. -/
theorem monthlyReport_average_activeMonths (u : ℕ) (yp : Option ℤ) (now : ℤ)
    (recs : List Expense) :
    (getMonthlyReport u yp now recs).summary.monthlyAverage =
      roundHalfUp2 ((getMonthlyReport u yp now recs).summary.yearlyTotal / 12) ∧
    (getMonthlyReport u yp now recs).summary.activeMonths =
      (getMonthlyReport u yp now recs).monthlyBreakdown.countP
        (fun e => decide (0 < e.count)) := by
  have hcents : isCents (((monthlyTotals u (effYear yp now) recs).map
      (fun g => g.totalAmount)).sum) := by
    apply isCents_sum
    intro x hx
    obtain ⟨g, hg, rfl⟩ := List.mem_map.mp hx
    obtain ⟨m, hm, rfl⟩ := monthlyTotals_mem_repr hg
    exact isCents_mongoRound2 _
  constructor
  · simp only [getMonthlyReport]
    rw [roundHalfUp2_eq_self hcents]
  · simp only [getMonthlyReport, completeMonthlyData]
    rw [List.countP_map]
    have hcong : ∀ i ∈ List.range monthNames.length,
        (((fun e : MonthEntry => decide (0 < e.count)) ∘ (fun (index : ℕ) =>
          (match (monthlyTotals u (effYear yp now) recs).find?
              (fun m => decide (m.month = (index : ℤ) + 1)) with
            | some monthData =>
              ({ month := (index : ℤ) + 1, monthName := monthNames.getD index ""
                 totalAmount := monthData.totalAmount, count := monthData.count
                 avgAmount := monthData.avgAmount } : MonthEntry)
            | none =>
              ({ month := (index : ℤ) + 1, monthName := monthNames.getD index ""
                 totalAmount := 0, count := 0, avgAmount := 0 } : MonthEntry))))) i = true ↔
          (fun i : ℕ => decide (((i : ℕ) : ℤ) + 1 ∈
            (monthlyTotals u (effYear yp now) recs).map (fun g => g.month))) i = true := by
      intro i _
      simp only [Function.comp, decide_eq_true_eq]
      cases h : (monthlyTotals u (effYear yp now) recs).find?
          (fun m => decide (m.month = (i : ℤ) + 1)) with
      | some g =>
        have hgm : g.month = (i : ℤ) + 1 := by
          have := List.find?_some h
          simpa using this
        have hgmem : g ∈ monthlyTotals u (effYear yp now) recs := List.mem_of_find?_eq_some h
        have hpos := (monthlyTotals_mem_spec hgmem).2
        constructor
        · intro _
          exact List.mem_map.mpr ⟨g, hgmem, hgm⟩
        · intro _
          simpa using hpos
      | none =>
        constructor
        · intro hzero
          simp at hzero
        · intro hmm
          obtain ⟨g, hgmem, hgm⟩ := List.mem_map.mp hmm
          rw [List.find?_eq_none] at h
          exact (h g hgmem (by simp [hgm])).elim
    rw [List.countP_congr hcong]
    have hsub : ∀ m ∈ (monthlyTotals u (effYear yp now) recs).map (fun g => g.month),
        1 ≤ m ∧ m ≤ 12 := by
      intro m hm
      obtain ⟨g, hg, rfl⟩ := List.mem_map.mp hm
      obtain ⟨⟨r, _, hrm⟩, _⟩ := monthlyTotals_mem_spec hg
      rw [← hrm]
      exact monthOfTs_range r.date
    have hmain := countP_range12_mem _ (monthlyTotals_months_nodup u (effYear yp now) recs) hsub
    have hlen12 : monthNames.length = 12 := rfl
    rw [hlen12, hmain, List.length_map]

/-! ## Category grouping facts (claims C10, C4, C2) -/

/-- The $group output document of the category pipeline for one key. -/
def catGroupOf (matched : List Expense) (c : Category) : CatGroup :=
  let g := matched.filter (fun r => decide (r.category = c))
  { category := c
    totalAmount := mongoRound2 (sumAmounts g)
    count := g.length
    avgAmount := mongoRound2 (sumAmounts g / (g.length : ℚ))
    expenses := g.map (fun r => (r.id, r.title, r.amount, r.date)) }

theorem categoryTotals_eq (u : ℕ) (s e : ℤ) (recs : List Expense) :
    categoryTotals u s e recs =
      List.insertionSort (fun a b => b.totalAmount ≤ a.totalAmount)
        ((keysOf (fun r : Expense => r.category) (catMatched u s e recs)).map
          (catGroupOf (catMatched u s e recs))) := rfl

/-- Every category pipeline group is the group document of one of the
distinct category keys of the matched records. -/
theorem categoryTotals_mem_repr {u : ℕ} {s e : ℤ} {recs : List Expense} {g : CatGroup}
    (hg : g ∈ categoryTotals u s e recs) :
    ∃ c ∈ keysOf (fun r : Expense => r.category) (catMatched u s e recs),
      g = catGroupOf (catMatched u s e recs) c := by
  rw [categoryTotals_eq, List.mem_insertionSort] at hg
  obtain ⟨c, hc, rfl⟩ := List.mem_map.mp hg
  exact ⟨c, hc, rfl⟩

/-- Conversely the group document of every distinct key is in the pipeline
output. -/
theorem catGroupOf_mem {u : ℕ} {s e : ℤ} {recs : List Expense} {c : Category}
    (hc : c ∈ keysOf (fun r : Expense => r.category) (catMatched u s e recs)) :
    catGroupOf (catMatched u s e recs) c ∈ categoryTotals u s e recs := by
  rw [categoryTotals_eq, List.mem_insertionSort]
  exact List.mem_map.mpr ⟨c, hc, rfl⟩

/-- Claim C10: every category breakdown entry carries the expenses array
listing exactly the matched records of its category, projected to id,
title, amount and date; in particular every matched record appears in the
entry of its category. -/
theorem categoryBreakdown_expenses_listed (u : ℕ) (s e : ℤ) (recs : List Expense) :
    (∀ entry ∈ (categoryReportData u s e recs).categoryBreakdown,
      entry.expenses = ((catMatched u s e recs).filter
        (fun r => decide (r.category = entry.category))).map
        (fun r => (r.id, r.title, r.amount, r.date))) ∧
    (∀ r ∈ catMatched u s e recs,
      ∃ entry ∈ (categoryReportData u s e recs).categoryBreakdown,
        entry.category = r.category ∧
        (r.id, r.title, r.amount, r.date) ∈ entry.expenses) := by
  constructor
  · intro entry hentry
    simp only [categoryReportData] at hentry
    obtain ⟨cg, hcg, rfl⟩ := List.mem_map.mp hentry
    obtain ⟨c, _, rfl⟩ := categoryTotals_mem_repr hcg
    rfl
  · intro r hr
    have hc : r.category ∈ keysOf (fun r : Expense => r.category) (catMatched u s e recs) :=
      mem_keysOf.mpr ⟨r, hr, rfl⟩
    have hct := catGroupOf_mem hc
    refine ⟨{ toCatGroup := catGroupOf (catMatched u s e recs) r.category
              percentage := if 0 < ((categoryTotals u s e recs).map
                  (fun c => c.totalAmount)).sum then
                roundHalfUp2 ((catGroupOf (catMatched u s e recs) r.category).totalAmount /
                  ((categoryTotals u s e recs).map (fun c => c.totalAmount)).sum * 100)
              else 0 }, ?_, rfl, ?_⟩
    · simp only [categoryReportData]
      exact List.mem_map.mpr ⟨_, hct, rfl⟩
    · show (r.id, r.title, r.amount, r.date) ∈ (catGroupOf (catMatched u s e recs)
        r.category).expenses
      apply List.mem_map.mpr
      refine ⟨r, ?_, rfl⟩
      rw [List.mem_filter]
      exact ⟨hr, by simp⟩

/-- Witness for claim C10: the single stored record of user 3 appears in
the expenses array of its category entry. -/
theorem categoryBreakdown_expenses_listed_witness :
    ∃ entry ∈ (categoryReportData 3 0 200000000000 [sampleExpense]).categoryBreakdown,
      entry.category = sampleExpense.category ∧
      (sampleExpense.id, sampleExpense.title, sampleExpense.amount, sampleExpense.date) ∈
        entry.expenses :=
  (categoryBreakdown_expenses_listed 3 0 200000000000 [sampleExpense]).2 sampleExpense
    (by simp [catMatched, catMatch, sampleExpense])

/-! ## Claim C2: rounding semantics -/

theorem roundHalfUp2_zero : roundHalfUp2 0 = 0 := roundHalfUp2_eq_self isCents_zero

def c2r1 : Expense := { id := 1, userId := 1, title := "a", amount := 1/50, date := 0
                        category := Category.Food, createdAt := 0 }

def c2r2 : Expense := { id := 2, userId := 1, title := "b", amount := 3/100, date := 0
                        category := Category.Food, createdAt := 0 }

/-- Counterexample to claim C2 as stated: for the two stored Food amounts
0.02 and 0.03 the category report emits avgAmount 0.02, but the exact
category average is 0.025, whose 2-place round-half-up value is 0.03: the
pipeline $round rounds half to even, not half up. -/
theorem rounding_half_up_counterexample :
    (categoryReportData 1 0 10 [c2r1, c2r2]).categoryBreakdown.map (fun c => c.avgAmount) =
      [1/50] ∧
    sumAmounts (catMatched 1 0 10 [c2r1, c2r2]) / 2 = 1/40 ∧
    roundHalfUp2 (1/40) = 3/100 ∧
    (1/50 : ℚ) ≠ 3/100 := by
  refine ⟨?_, ?_, ?_, by norm_num⟩
  · norm_num [categoryReportData, categoryTotals, catMatched, catMatch, keysOf, sumAmounts,
      mongoRound2, roundHalfEven, roundHalfUp2, Int.fract, c2r1, c2r2, round_eq, List.dedup]
  · norm_num [sumAmounts, catMatched, catMatch, c2r1, c2r2]
  · norm_num [roundHalfUp2, round_eq]

theorem categoryBreakdown_cents (u : ℕ) (s e : ℤ) (recs : List Expense) :
    ∀ c ∈ (categoryReportData u s e recs).categoryBreakdown,
      isCents c.totalAmount ∧ isCents c.avgAmount ∧ isCents c.percentage := by
  intro c hc
  simp only [categoryReportData] at hc
  obtain ⟨cg, hcg, rfl⟩ := List.mem_map.mp hc
  obtain ⟨k, _, rfl⟩ := categoryTotals_mem_repr hcg
  refine ⟨isCents_mongoRound2 _, isCents_mongoRound2 _, ?_⟩
  dsimp only
  split
  · exact isCents_roundHalfUp2 _
  · exact isCents_zero

theorem topCategoriesFrom_cents (matched : List Expense) :
    ∀ t ∈ topCategoriesFrom matched, isCents t.totalAmount := by
  intro t ht
  simp only [topCategoriesFrom] at ht
  have hmem := List.mem_of_mem_take ht
  rw [List.mem_insertionSort] at hmem
  obtain ⟨c, _, rfl⟩ := List.mem_map.mp hmem
  exact isCents_mongoRound2 _

theorem dailyTrendsOf_cents (u : ℕ) (start : ℤ) (recs : List Expense) :
    ∀ d ∈ dailyTrendsOf u start recs, isCents d.totalAmount := by
  intro d hd
  simp only [dailyTrendsOf] at hd
  rw [List.mem_insertionSort] at hd
  obtain ⟨k, _, rfl⟩ := List.mem_map.mp hd
  exact isCents_mongoRound2 _

theorem monthlyBreakdown_cents (u : ℕ) (yp : Option ℤ) (now : ℤ) (recs : List Expense) :
    ∀ en ∈ (getMonthlyReport u yp now recs).monthlyBreakdown,
      isCents en.totalAmount ∧ isCents en.avgAmount := by
  intro en hen
  simp only [getMonthlyReport, completeMonthlyData] at hen
  obtain ⟨i, _, rfl⟩ := List.mem_map.mp hen
  cases h : (monthlyTotals u (effYear yp now) recs).find?
      (fun m => decide (m.month = (i : ℤ) + 1)) with
  | some g =>
    have hgmem : g ∈ monthlyTotals u (effYear yp now) recs := List.mem_of_find?_eq_some h
    obtain ⟨m, _, rfl⟩ := monthlyTotals_mem_repr hgmem
    exact ⟨isCents_mongoRound2 _, isCents_mongoRound2 _⟩
  | none =>
    exact ⟨isCents_zero, isCents_zero⟩

/-- Claim C2 (amended): every aggregate monetary and percentage figure
emitted by the four report operations (summary totals and averages,
per-bucket totals, averages and percentages, and the top-category totals
of both the trend and the summary report) is an exact 2-decimal value, and
every average whose divisor would be zero is emitted as 0.  (The rounding
mode is round half to even for the figures rounded inside the store
pipeline, mongoRound2, and round half toward positive infinity for the
figures rounded in the JS assembler, roundHalfUp2; per-bucket totals are
rounded before the assembler sums them, which coincides with unrounded
aggregation because stored amounts have at most 2 decimals.) -/
theorem rounding_layer_normalized (u : ℕ) (s e : ℤ) (dp yp : Option ℤ) (now : ℤ)
    (recs : List Expense) :
    (isCents (categoryReportData u s e recs).summary.grandTotal ∧
     isCents (categoryReportData u s e recs).summary.avgExpense ∧
     ((categoryReportData u s e recs).summary.totalCount = 0 →
       (categoryReportData u s e recs).summary.avgExpense = 0) ∧
     ∀ c ∈ (categoryReportData u s e recs).categoryBreakdown,
       isCents c.totalAmount ∧ isCents c.avgAmount ∧ isCents c.percentage) ∧
    (isCents (getMonthlyReport u yp now recs).summary.yearlyTotal ∧
     isCents (getMonthlyReport u yp now recs).summary.monthlyAverage ∧
     ∀ en ∈ (getMonthlyReport u yp now recs).monthlyBreakdown,
       isCents en.totalAmount ∧ isCents en.avgAmount) ∧
    (isCents (getExpenseTrends u dp now recs).summary.periodTotal ∧
     isCents (getExpenseTrends u dp now recs).summary.dailyAverage ∧
     ((getExpenseTrends u dp now recs).summary.activeDays = 0 →
       (getExpenseTrends u dp now recs).summary.dailyAverage = 0) ∧
     (∀ d ∈ (getExpenseTrends u dp now recs).dailyTrends, isCents d.totalAmount) ∧
     (∀ t ∈ (getExpenseTrends u dp now recs).topCategories, isCents t.totalAmount)) ∧
    (isCents (getExpenseSummary u now recs).overview.totalExpenses ∧
     isCents (getExpenseSummary u now recs).overview.averageExpense ∧
     isCents (getExpenseSummary u now recs).overview.minExpense ∧
     isCents (getExpenseSummary u now recs).overview.maxExpense ∧
     isCents (getExpenseSummary u now recs).currentMonth.totalAmount ∧
     (∀ t ∈ (getExpenseSummary u now recs).topCategories, isCents t.totalAmount) ∧
     ((getExpenseSummary u now recs).overview.totalCount = 0 →
       (getExpenseSummary u now recs).overview.averageExpense = 0)) := by
  refine ⟨⟨isCents_roundHalfUp2 _, ?_, ?_, categoryBreakdown_cents u s e recs⟩,
    ⟨isCents_roundHalfUp2 _, isCents_roundHalfUp2 _, monthlyBreakdown_cents u yp now recs⟩,
    ⟨isCents_roundHalfUp2 _, isCents_roundHalfUp2 _, ?_,
     dailyTrendsOf_cents u _ recs, topCategoriesFrom_cents _⟩,
    ?_⟩
  · simp only [categoryReportData]
    split
    · exact isCents_roundHalfUp2 _
    · exact isCents_zero
  · intro h
    simp only [categoryReportData] at h ⊢
    simp [h]
  · intro h
    simp only [getExpenseTrends] at h ⊢
    simp [h, roundHalfUp2_zero]
  · by_cases hm : (userMatched u recs).length = 0
    · simp only [getExpenseSummary, hm, if_pos]
      refine ⟨isCents_roundHalfUp2 _, isCents_roundHalfUp2 _, isCents_roundHalfUp2 _,
        isCents_roundHalfUp2 _, ?_, topCategoriesFrom_cents _, fun _ => roundHalfUp2_zero⟩
      by_cases hc : (curMonthMatched u now recs).length = 0
      · simp [hc]
        exact isCents_roundHalfUp2 _
      · simp [hc]
        exact isCents_roundHalfUp2 _
    · simp only [getExpenseSummary, hm, if_neg, if_false]
      refine ⟨isCents_roundHalfUp2 _, isCents_roundHalfUp2 _, isCents_roundHalfUp2 _,
        isCents_roundHalfUp2 _, ?_, topCategoriesFrom_cents _, fun hzero => hzero.elim⟩
      by_cases hc : (curMonthMatched u now recs).length = 0
      · simp [hc]
        exact isCents_roundHalfUp2 _
      · simp [hc]
        exact isCents_roundHalfUp2 _

/-- Witness for claim C2 (amended) at concrete inputs: the grand total for
an empty store is an exact 2-decimal value and the zero-count average is
emitted as 0. -/
theorem rounding_layer_normalized_witness :
    isCents (categoryReportData 1 0 10 ([] : List Expense)).summary.grandTotal ∧
    (categoryReportData 1 0 10 ([] : List Expense)).summary.avgExpense = 0 :=
  ⟨(rounding_layer_normalized 1 0 10 none none 0 []).1.1,
   (rounding_layer_normalized 1 0 10 none none 0 []).1.2.2.1 rfl⟩

/-! ## Claim C4: percentage sum -/

/-- Under the stored-amount validity invariants, every category group has a
positive (exact) total and a positive count. -/
theorem catGroupOf_pos {u : ℕ} {s e : ℤ} {recs : List Expense}
    (hval : ∀ r ∈ recs, ValidAmount r) {c : Category}
    (hc : c ∈ keysOf (fun r : Expense => r.category) (catMatched u s e recs)) :
    0 < (catGroupOf (catMatched u s e recs) c).totalAmount ∧
    0 < (catGroupOf (catMatched u s e recs) c).count := by
  obtain ⟨r, hr, hrc⟩ := mem_keysOf.mp hc
  have hrmem : r ∈ (catMatched u s e recs).filter (fun x => decide (x.category = c)) := by
    rw [List.mem_filter]
    exact ⟨hr, by simp [hrc]⟩
  have hvalid : ∀ x ∈ (catMatched u s e recs).filter (fun x => decide (x.category = c)),
      ValidAmount x := by
    intro x hx
    have hx1 : x ∈ catMatched u s e recs := (List.mem_filter.mp hx).1
    simp only [catMatched] at hx1
    exact hval x (List.mem_filter.mp hx1).1
  have hne : (catMatched u s e recs).filter (fun x => decide (x.category = c)) ≠ [] := by
    intro hnil
    rw [hnil] at hrmem
    simp at hrmem
  have hsum_pos : 0 < sumAmounts ((catMatched u s e recs).filter
      (fun x => decide (x.category = c))) := by
    apply List.sum_pos
    · intro x hx
      obtain ⟨a, ha, rfl⟩ := List.mem_map.mp hx
      exact (hvalid a ha).1
    · simp only [ne_eq, List.map_eq_nil_iff]
      exact hne
  have hsum_cents : isCents (sumAmounts ((catMatched u s e recs).filter
      (fun x => decide (x.category = c)))) := by
    apply isCents_sum
    intro x hx
    obtain ⟨a, ha, rfl⟩ := List.mem_map.mp hx
    exact (hvalid a ha).2
  constructor
  · show 0 < mongoRound2 (sumAmounts _)
    rw [mongoRound2_eq_self hsum_cents]
    exact hsum_pos
  · exact List.length_pos.mpr hne

theorem categoryTotals_pos {u : ℕ} {s e : ℤ} {recs : List Expense}
    (hval : ∀ r ∈ recs, ValidAmount r) :
    ∀ g ∈ categoryTotals u s e recs, 0 < g.totalAmount ∧ 0 < g.count := by
  intro g hg
  obtain ⟨c, hc, rfl⟩ := categoryTotals_mem_repr hg
  exact catGroupOf_pos hval hc

/-- At most 9 categories can appear in a breakdown (the closed category
enumeration has 9 values and the groups have distinct keys). -/
theorem categoryTotals_length_le (u : ℕ) (s e : ℤ) (recs : List Expense) :
    (categoryTotals u s e recs).length ≤ 9 := by
  rw [categoryTotals_eq, List.length_insertionSort, List.length_map]
  have h9 : Fintype.card Category = 9 := rfl
  exact h9 ▸ List.Nodup.length_le_card (nodup_keysOf _ _)

/-- Claim C4 (amended): whenever totalCount > 0 the category percentages
sum to 100 within half a cent per category, i.e. within k/200 where k is
the number of breakdown entries, and k ≤ 9 (so within 0.045); the stated
tolerance of 0.01 does not hold (see the counterexample).  When
totalCount = 0 the breakdown is empty and the percentage sum is 0. -/
theorem categoryPercentages_sum_bound (u : ℕ) (s e : ℤ) (recs : List Expense)
    (hval : ∀ r ∈ recs, ValidAmount r) :
    (0 < (categoryReportData u s e recs).summary.totalCount →
      |((categoryReportData u s e recs).categoryBreakdown.map (fun c => c.percentage)).sum
        - 100| ≤ ((categoryReportData u s e recs).categoryBreakdown.length : ℚ) / 200 ∧
      (categoryReportData u s e recs).categoryBreakdown.length ≤ 9) ∧
    ((categoryReportData u s e recs).summary.totalCount = 0 →
      (categoryReportData u s e recs).categoryBreakdown = [] ∧
      ((categoryReportData u s e recs).categoryBreakdown.map (fun c => c.percentage)).sum
        = 0) := by
  have hpos := @categoryTotals_pos u s e recs hval
  constructor
  · intro hcount
    simp only [categoryReportData] at hcount ⊢
    have hne : categoryTotals u s e recs ≠ [] := by
      intro hnil
      rw [hnil] at hcount
      simp at hcount
    have hT : 0 < ((categoryTotals u s e recs).map (fun c => c.totalAmount)).sum := by
      apply List.sum_pos
      · intro x hx
        obtain ⟨g, hg, rfl⟩ := List.mem_map.mp hx
        exact (hpos g hg).1
      · simp only [ne_eq, List.map_eq_nil_iff]
        exact hne
    constructor
    · rw [List.map_map]
      have hmap : (categoryTotals u s e recs).map
          ((fun c : CatEntry => c.percentage) ∘ (fun c : CatGroup =>
            ({ toCatGroup := c
               percentage := if 0 < ((categoryTotals u s e recs).map
                   (fun c => c.totalAmount)).sum then
                 roundHalfUp2 (c.totalAmount /
                   ((categoryTotals u s e recs).map (fun c => c.totalAmount)).sum * 100)
               else 0 } : CatEntry))) =
          (categoryTotals u s e recs).map (fun c : CatGroup =>
            roundHalfUp2 (c.totalAmount /
              ((categoryTotals u s e recs).map (fun c => c.totalAmount)).sum * 100)) := by
        apply List.map_congr_left
        intro g _
        simp only [Function.comp]
        rw [if_pos hT]
      rw [hmap]
      have hbound := abs_sum_map_sub_le (categoryTotals u s e recs)
        (fun c : CatGroup => roundHalfUp2 (c.totalAmount /
          ((categoryTotals u s e recs).map (fun c => c.totalAmount)).sum * 100))
        (fun c : CatGroup => c.totalAmount /
          ((categoryTotals u s e recs).map (fun c => c.totalAmount)).sum * 100)
        (1/200) (fun a _ => abs_roundHalfUp2_sub _)
      have hsum100 : ((categoryTotals u s e recs).map (fun c : CatGroup =>
          c.totalAmount / ((categoryTotals u s e recs).map
            (fun c => c.totalAmount)).sum * 100)).sum = 100 := by
        have hrw : (categoryTotals u s e recs).map (fun c : CatGroup =>
            c.totalAmount / ((categoryTotals u s e recs).map
              (fun c => c.totalAmount)).sum * 100) =
            (categoryTotals u s e recs).map (fun c : CatGroup =>
              c.totalAmount * (100 / ((categoryTotals u s e recs).map
                (fun c => c.totalAmount)).sum)) := by
          apply List.map_congr_left
          intro g _
          ring
        rw [hrw, List.sum_map_mul_right]
        field_simp
      rw [hsum100] at hbound
      have hlenmap : ((categoryTotals u s e recs).map (fun c : CatGroup =>
          ({ toCatGroup := c
             percentage := if 0 < ((categoryTotals u s e recs).map
                 (fun c => c.totalAmount)).sum then
               roundHalfUp2 (c.totalAmount /
                 ((categoryTotals u s e recs).map (fun c => c.totalAmount)).sum * 100)
             else 0 } : CatEntry))).length = (categoryTotals u s e recs).length :=
        List.length_map _ _
      rw [hlenmap]
      calc |((categoryTotals u s e recs).map (fun c : CatGroup =>
            roundHalfUp2 (c.totalAmount / ((categoryTotals u s e recs).map
              (fun c => c.totalAmount)).sum * 100))).sum - 100|
          ≤ ((categoryTotals u s e recs).length : ℚ) * (1/200) := hbound
        _ = ((categoryTotals u s e recs).length : ℚ) / 200 := by ring
    · rw [List.length_map]
      exact categoryTotals_length_le u s e recs
  · intro h0
    simp only [categoryReportData] at h0 ⊢
    have hnil : categoryTotals u s e recs = [] := by
      cases hc : categoryTotals u s e recs with
      | nil => rfl
      | cons g t =>
        exfalso
        rw [hc] at h0
        rw [List.map_cons, List.sum_cons] at h0
        have hgpos := (hpos g (by rw [hc]; exact List.mem_cons_self g t)).2
        omega
    rw [hnil]
    exact ⟨rfl, rfl⟩

/-- The percentage sum and the total count of the category report can be
computed over the unsorted group list (the $sort stage only permutes the
groups). -/
theorem categoryReport_sums_unsorted (u : ℕ) (s e : ℤ) (recs : List Expense) :
    ((categoryReportData u s e recs).categoryBreakdown.map (fun c => c.percentage)).sum =
      ((((keysOf (fun r : Expense => r.category) (catMatched u s e recs)).map
        (catGroupOf (catMatched u s e recs))).map (fun c =>
          if 0 < (((keysOf (fun r : Expense => r.category) (catMatched u s e recs)).map
              (catGroupOf (catMatched u s e recs))).map (fun c => c.totalAmount)).sum then
            roundHalfUp2 (c.totalAmount /
              (((keysOf (fun r : Expense => r.category) (catMatched u s e recs)).map
                (catGroupOf (catMatched u s e recs))).map (fun c => c.totalAmount)).sum * 100)
          else 0)).sum) ∧
    (categoryReportData u s e recs).summary.totalCount =
      (((keysOf (fun r : Expense => r.category) (catMatched u s e recs)).map
        (catGroupOf (catMatched u s e recs))).map (fun c => c.count)).sum := by
  have hperm : (categoryTotals u s e recs).Perm
      ((keysOf (fun r : Expense => r.category) (catMatched u s e recs)).map
        (catGroupOf (catMatched u s e recs))) := by
    rw [categoryTotals_eq]
    exact List.perm_insertionSort _ _
  have hT : ((categoryTotals u s e recs).map (fun c => c.totalAmount)).sum =
      (((keysOf (fun r : Expense => r.category) (catMatched u s e recs)).map
        (catGroupOf (catMatched u s e recs))).map (fun c => c.totalAmount)).sum :=
    (hperm.map _).sum_eq
  constructor
  · simp only [categoryReportData]
    rw [List.map_map]
    rw [(hperm.map _).sum_eq]
    apply congrArg
    apply List.map_congr_left
    intro g _
    simp only [Function.comp]
    rw [hT]
  · simp only [categoryReportData]
    exact (hperm.map _).sum_eq

def c4r1 : Expense := { id := 1, userId := 1, title := "a", amount := 5001/100, date := 0
                        category := Category.Food, createdAt := 0 }
def c4r2 : Expense := { id := 2, userId := 1, title := "b", amount := 5001/100, date := 0
                        category := Category.Transportation, createdAt := 0 }
def c4r3 : Expense := { id := 3, userId := 1, title := "c", amount := 5001/100, date := 0
                        category := Category.Entertainment, createdAt := 0 }
def c4r4 : Expense := { id := 4, userId := 1, title := "d", amount := 4997/100, date := 0
                        category := Category.Healthcare, createdAt := 0 }

/-- Counterexample to claim C4 as stated: four valid records of 50.01,
50.01, 50.01 and 49.97 in four distinct categories (grand total 200.00)
give percentages 25.01, 25.01, 25.01 and 24.99, which sum to 100.02: the
deviation 0.02 exceeds the stated tolerance of 0.01 even though
totalCount > 0. -/
theorem percentage_tolerance_counterexample :
    0 < (categoryReportData 1 0 10 [c4r1, c4r2, c4r3, c4r4]).summary.totalCount ∧
    ((categoryReportData 1 0 10 [c4r1, c4r2, c4r3, c4r4]).categoryBreakdown.map
      (fun c => c.percentage)).sum = 10002/100 ∧
    ¬(|((categoryReportData 1 0 10 [c4r1, c4r2, c4r3, c4r4]).categoryBreakdown.map
      (fun c => c.percentage)).sum - 100| ≤ 1/100) := by
  have hmatch : catMatched 1 0 10 [c4r1, c4r2, c4r3, c4r4] = [c4r1, c4r2, c4r3, c4r4] := by
    norm_num [catMatched, catMatch, c4r1, c4r2, c4r3, c4r4]
  have hkeys : keysOf (fun r : Expense => r.category) [c4r1, c4r2, c4r3, c4r4] =
      [Category.Food, Category.Transportation, Category.Entertainment,
       Category.Healthcare] := by
    decide
  have hflt1 : List.filter (fun r => decide (r.category = Category.Food))
      [c4r1, c4r2, c4r3, c4r4] = [c4r1] := rfl
  have hflt2 : List.filter (fun r => decide (r.category = Category.Transportation))
      [c4r1, c4r2, c4r3, c4r4] = [c4r2] := rfl
  have hflt3 : List.filter (fun r => decide (r.category = Category.Entertainment))
      [c4r1, c4r2, c4r3, c4r4] = [c4r3] := rfl
  have hflt4 : List.filter (fun r => decide (r.category = Category.Healthcare))
      [c4r1, c4r2, c4r3, c4r4] = [c4r4] := rfl
  have ht1 : (catGroupOf [c4r1, c4r2, c4r3, c4r4] Category.Food).totalAmount
      = 5001/100 := by
    show mongoRound2 (sumAmounts (List.filter
      (fun r => decide (r.category = Category.Food)) [c4r1, c4r2, c4r3, c4r4])) = 5001/100
    rw [hflt1]
    norm_num [sumAmounts, c4r1, mongoRound2, roundHalfEven, Int.fract, round_eq]
  have ht2 : (catGroupOf [c4r1, c4r2, c4r3, c4r4] Category.Transportation).totalAmount
      = 5001/100 := by
    show mongoRound2 (sumAmounts (List.filter
      (fun r => decide (r.category = Category.Transportation))
      [c4r1, c4r2, c4r3, c4r4])) = 5001/100
    rw [hflt2]
    norm_num [sumAmounts, c4r2, mongoRound2, roundHalfEven, Int.fract, round_eq]
  have ht3 : (catGroupOf [c4r1, c4r2, c4r3, c4r4] Category.Entertainment).totalAmount
      = 5001/100 := by
    show mongoRound2 (sumAmounts (List.filter
      (fun r => decide (r.category = Category.Entertainment))
      [c4r1, c4r2, c4r3, c4r4])) = 5001/100
    rw [hflt3]
    norm_num [sumAmounts, c4r3, mongoRound2, roundHalfEven, Int.fract, round_eq]
  have ht4 : (catGroupOf [c4r1, c4r2, c4r3, c4r4] Category.Healthcare).totalAmount
      = 4997/100 := by
    show mongoRound2 (sumAmounts (List.filter
      (fun r => decide (r.category = Category.Healthcare))
      [c4r1, c4r2, c4r3, c4r4])) = 4997/100
    rw [hflt4]
    norm_num [sumAmounts, c4r4, mongoRound2, roundHalfEven, Int.fract, round_eq]
  have hc1 : (catGroupOf [c4r1, c4r2, c4r3, c4r4] Category.Food).count = 1 := rfl
  have hc2 : (catGroupOf [c4r1, c4r2, c4r3, c4r4] Category.Transportation).count = 1 := rfl
  have hc3 : (catGroupOf [c4r1, c4r2, c4r3, c4r4] Category.Entertainment).count = 1 := rfl
  have hc4 : (catGroupOf [c4r1, c4r2, c4r3, c4r4] Category.Healthcare).count = 1 := rfl
  obtain ⟨h1, h2⟩ := categoryReport_sums_unsorted 1 0 10 [c4r1, c4r2, c4r3, c4r4]
  rw [hmatch, hkeys] at h1 h2
  simp only [List.map_cons, List.map_nil, List.sum_cons, List.sum_nil] at h1 h2
  rw [ht1, ht2, ht3, ht4] at h1
  rw [hc1, hc2, hc3, hc4] at h2
  have hsum : ((categoryReportData 1 0 10 [c4r1, c4r2, c4r3, c4r4]).categoryBreakdown.map
      (fun c => c.percentage)).sum = 10002/100 := by
    rw [h1]
    norm_num [roundHalfUp2, round_eq]
  refine ⟨?_, hsum, ?_⟩
  · rw [h2]
    norm_num
  · rw [hsum]
    rw [show (10002 : ℚ)/100 - 100 = 2/100 by norm_num]
    rw [abs_of_pos (by norm_num : (0:ℚ) < 2/100)]
    norm_num

/-- Witness for claim C4 (amended) at a concrete input: one valid record. -/
theorem categoryPercentages_sum_bound_witness :
    |((categoryReportData 1 0 10 [c4r1]).categoryBreakdown.map
      (fun c => c.percentage)).sum - 100| ≤
      ((categoryReportData 1 0 10 [c4r1]).categoryBreakdown.length : ℚ) / 200 := by
  have hval : ∀ r ∈ [c4r1], ValidAmount r := by
    intro r hr
    simp only [List.mem_singleton] at hr
    subst hr
    exact ⟨by norm_num [c4r1], ⟨5001, by norm_num [c4r1]⟩⟩
  have hcount : 0 < (categoryReportData 1 0 10 [c4r1]).summary.totalCount := by
    obtain ⟨-, h2⟩ := categoryReport_sums_unsorted 1 0 10 [c4r1]
    have hmatch : catMatched 1 0 10 [c4r1] = [c4r1] := by
      norm_num [catMatched, catMatch, c4r1]
    have hkeys : keysOf (fun r : Expense => r.category) [c4r1] = [Category.Food] := by
      decide
    rw [hmatch, hkeys] at h2
    simp only [List.map_cons, List.map_nil, List.sum_cons, List.sum_nil] at h2
    rw [h2]
    decide
  exact ((categoryPercentages_sum_bound 1 0 10 [c4r1] hval).1 hcount).1

/-! ## Claim C7: trend summary -/

theorem dayOfTs_mono {a b : ℤ} (h : a ≤ b) : dayOfTs a ≤ dayOfTs b := by
  simp only [dayOfTs, msPerDay]
  omega

/-- Stepping the window start back by exactly D days moves the day number
by exactly D. -/
theorem dayOfTs_window (now D : ℤ) : dayOfTs now - dayOfTs (now - D * msPerDay) = D := by
  simp only [dayOfTs, msPerDay]
  omega

/-- The daily $group key is the civil date of the UTC day number. -/
theorem dayKey_eq (r : Expense) : dayKey r = civil_from_days (dayOfTs r.date) := rfl

theorem trendMatched_date_bounds {u : ℕ} {start : ℤ} {recs : List Expense} {r : Expense}
    (hr : r ∈ trendMatched u start recs) : r ∈ recs ∧ start ≤ r.date := by
  simp only [trendMatched] at hr
  have h1 := List.mem_filter.mp hr
  refine ⟨h1.1, ?_⟩
  have := h1.2
  simp only [trendMatch, decide_eq_true_eq] at this
  exact this.2

/-- Claim C7 (amended): the emitted dailyAverage is 0 when there are no
active days and otherwise the 2-place half-up rounding of
periodTotal / activeDays; activeDays is the length of the daily trends
list; and activeDays is at most max(days, 0) + 1 (the window
[now - days, now] touches days + 1 calendar days, so the stated bound
activeDays ≤ days can be exceeded by one; see the counterexample). -/
theorem trend_daily_average_active_days (u : ℕ) (dp : Option ℤ) (now : ℤ)
    (recs : List Expense) (hnow : ∀ r ∈ recs, r.date ≤ now) :
    ((getExpenseTrends u dp now recs).summary.dailyAverage =
      if (getExpenseTrends u dp now recs).summary.activeDays = 0 then 0
      else roundHalfUp2 ((getExpenseTrends u dp now recs).summary.periodTotal /
        ((getExpenseTrends u dp now recs).summary.activeDays : ℚ))) ∧
    (getExpenseTrends u dp now recs).summary.activeDays =
      (getExpenseTrends u dp now recs).dailyTrends.length ∧
    ((getExpenseTrends u dp now recs).summary.activeDays : ℤ) ≤
      max (getExpenseTrends u dp now recs).days 0 + 1 := by
  have hcents : isCents (((dailyTrendsOf u (now - effDays dp * msPerDay) recs).map
      (fun d => d.totalAmount)).sum) := by
    apply isCents_sum
    intro x hx
    obtain ⟨d, hd, rfl⟩ := List.mem_map.mp hx
    exact dailyTrendsOf_cents u _ recs d hd
  refine ⟨?_, rfl, ?_⟩
  · simp only [getExpenseTrends]
    by_cases hlen : (dailyTrendsOf u (now - effDays dp * msPerDay) recs).length = 0
    · simp only [hlen, if_pos]
      rw [if_neg (by omega), roundHalfUp2_zero]
    · rw [if_neg hlen, if_pos (by omega)]
      rw [roundHalfUp2_eq_self hcents]
  · simp only [getExpenseTrends]
    have hlen1 : (dailyTrendsOf u (now - effDays dp * msPerDay) recs).length =
        (keysOf dayKey (trendMatched u (now - effDays dp * msPerDay) recs)).length := by
      simp only [dailyTrendsOf]
      rw [List.length_insertionSort, List.length_map]
    rw [hlen1]
    by_cases hD : 0 ≤ effDays dp
    · have hcomp : (keysOf dayKey (trendMatched u (now - effDays dp * msPerDay) recs)).length
          ≤ (keysOf (fun r => dayOfTs r.date)
            (trendMatched u (now - effDays dp * msPerDay) recs)).length := by
        have hmap : (trendMatched u (now - effDays dp * msPerDay) recs).map dayKey =
            ((trendMatched u (now - effDays dp * msPerDay) recs).map
              (fun r => dayOfTs r.date)).map civil_from_days := by
          rw [List.map_map]
          apply List.map_congr_left
          intro a _
          simp only [Function.comp]
          exact dayKey_eq a
        simp only [keysOf]
        rw [hmap]
        exact dedup_length_map_le civil_from_days _
      have hicc : ∀ x ∈ keysOf (fun r => dayOfTs r.date)
          (trendMatched u (now - effDays dp * msPerDay) recs),
          dayOfTs (now - effDays dp * msPerDay) ≤ x ∧ x ≤ dayOfTs now := by
        intro x hx
        obtain ⟨r, hr, rfl⟩ := mem_keysOf.mp hx
        obtain ⟨hrecs, hstart⟩ := trendMatched_date_bounds hr
        exact ⟨dayOfTs_mono hstart, dayOfTs_mono (hnow r hrecs)⟩
      have hbound := length_le_of_nodup_mem_Icc
        (nodup_keysOf (fun r => dayOfTs r.date)
          (trendMatched u (now - effDays dp * msPerDay) recs)) hicc
      have hwin := dayOfTs_window now (effDays dp)
      omega
    · have hempty : trendMatched u (now - effDays dp * msPerDay) recs = [] := by
        apply List.filter_eq_nil_iff.mpr
        intro r hr
        simp only [trendMatch, decide_eq_true_eq, not_and]
        intro _
        have h1 := hnow r hr
        simp only [msPerDay]
        omega
      rw [hempty, keysOf_nil]
      simp only [List.length_nil]
      omega

def c7r1 : Expense := { id := 1, userId := 1, title := "a", amount := 1, date := 1
                        category := Category.Food, createdAt := 0 }
def c7r2 : Expense := { id := 2, userId := 1, title := "b", amount := 1, date := 86400000
                        category := Category.Food, createdAt := 0 }

/-- Counterexample to claim C7 as stated: with days = 1 and the request
1 millisecond after midnight, one record late on the previous UTC day and
one at the current midnight both fall in the window [now - 1 day, now],
giving activeDays = 2 > days = 1. -/
theorem active_days_bound_counterexample :
    (getExpenseTrends 1 (some 1) 86400001 [c7r1, c7r2]).days = 1 ∧
    (getExpenseTrends 1 (some 1) 86400001 [c7r1, c7r2]).summary.activeDays = 2 ∧
    ¬(((getExpenseTrends 1 (some 1) 86400001 [c7r1, c7r2]).summary.activeDays : ℤ) ≤
      (getExpenseTrends 1 (some 1) 86400001 [c7r1, c7r2]).days) := by
  refine ⟨rfl, ?_, ?_⟩
  · decide
  · decide

/-- Witness for claim C7 (amended) at a concrete input. -/
theorem trend_daily_average_active_days_witness :
    ((getExpenseTrends 3 (some 2) 200000000 [sampleExpense]).summary.activeDays : ℤ) ≤
      max (getExpenseTrends 3 (some 2) 200000000 [sampleExpense]).days 0 + 1 :=
  (trend_daily_average_active_days 3 (some 2) 200000000 [sampleExpense]
    (by intro r hr; simp only [List.mem_singleton] at hr; subst hr
        norm_num [sampleExpense])).2.2

/-! ## Claim C8: the monthly window and December 31 -/

/-- A record of user 1 dated 2023-12-31 12:00:00 UTC (noon on December 31,
day number 19722 since the epoch). -/
def c8rec : Expense := { id := 1, userId := 1, title := "x", amount := 5, date := 19722 * 86400000 + 43200000
                         category := Category.Food, createdAt := 0 }

/-- Evaluation of the failing input of claim C8: the record is dated
December 31 of the requested year 2023, yet the monthly pipeline $match
upper bound new Date(2023, 11, 31) is the midnight of December 31, so the
record is excluded from the matched set and from the yearly totals,
contradicting the inclusive [year-01-01, year-12-31] window of the claim. -/
theorem monthly_window_excludes_dec31 :
    (yearOfTs c8rec.date, monthOfTs c8rec.date, dayOfMonthTs c8rec.date) = (2023, 12, 31) ∧
    mkDateMs 2023 12 31 < c8rec.date ∧
    monthlyMatched 1 2023 [c8rec] = [] ∧
    (getMonthlyReport 1 (some 2023) 0 [c8rec]).summary.yearlyTotal = 0 ∧
    (getMonthlyReport 1 (some 2023) 0 [c8rec]).summary.yearlyCount = 0 := by
  have hmt : monthlyTotals 1 2023 [c8rec] = [] := by decide
  refine ⟨by decide, by decide, by decide, ?_, ?_⟩
  · show roundHalfUp2 (((monthlyTotals 1 (effYear (some 2023) 0) [c8rec]).map
      (fun g => g.totalAmount)).sum) = 0
    have heff : effYear (some 2023) 0 = 2023 := by decide
    rw [heff, hmt]
    simp only [List.map_nil, List.sum_nil]
    exact roundHalfUp2_zero
  · show ((monthlyTotals 1 (effYear (some 2023) 0) [c8rec]).map (fun g => g.count)).sum = 0
    have heff : effYear (some 2023) 0 = 2023 := by decide
    rw [heff, hmt]
    rfl

/-! ## Claim C9: determinism and the clock -/

/-- Counterexample to claim C9 as stated: the trend report emitted for the
same user, the same days parameter and the same (empty) record set differs
between two request times, because the window and the emitted period
depend on the wall clock: the report is not a function of the record set
and the query parameters alone. -/
theorem report_clock_dependence_counterexample :
    getExpenseTrends 1 none 0 [] ≠ getExpenseTrends 1 none 1 [] := by
  intro h
  have h0 : (getExpenseTrends 1 none 0 ([] : List Expense)).endDate = 0 := rfl
  have h1 : (getExpenseTrends 1 none 1 ([] : List Expense)).endDate = 1 := rfl
  rw [h, h1] at h0
  exact absurd h0 (by norm_num)

/-- Claim C9 (amended): with the request time fixed alongside the query
parameters, every report operation is a pure function: evaluating it twice
on the same record set gives identical output.  (In the model all clock
reads are explicit inputs, so determinism holds definitionally; the
counterexample shows the request time genuinely matters.) -/
theorem reports_deterministic (u : ℕ) (sd ed dp yp : Option ℤ) (now : ℤ)
    (recs : List Expense) :
    getCategoryReport u sd ed recs = getCategoryReport u sd ed recs ∧
    getMonthlyReport u yp now recs = getMonthlyReport u yp now recs ∧
    getExpenseTrends u dp now recs = getExpenseTrends u dp now recs ∧
    getExpenseSummary u now recs = getExpenseSummary u now recs :=
  ⟨rfl, rfl, rfl, rfl⟩

/-- Witness for claim C3 at a concrete input: for an empty record store the
12 months appear in order and some breakdown entry (necessarily a month
with no matching records) carries zero values. -/
theorem monthlyBreakdown_gap_filled_witness :
    (getMonthlyReport 1 none 0 ([] : List Expense)).monthlyBreakdown.map (fun e => e.month) =
      [1, 2, 3, 4, 5, 6, 7, 8, 9, 10, 11, 12] ∧
    ∃ e ∈ (getMonthlyReport 1 none 0 ([] : List Expense)).monthlyBreakdown,
      e.totalAmount = 0 ∧ e.count = 0 ∧ e.avgAmount = 0 := by
  have h1 := (monthlyBreakdown_gap_filled 1 none 0 []).1
  refine ⟨h1, ?_⟩
  cases hb : (getMonthlyReport 1 none 0 ([] : List Expense)).monthlyBreakdown with
  | nil =>
    rw [hb] at h1
    simp at h1
  | cons e t =>
    refine ⟨e, List.mem_cons_self e t, ?_⟩
    apply (monthlyBreakdown_gap_filled 1 none 0 []).2.2 e
      (by rw [hb]; exact List.mem_cons_self e t)
    intro r hr
    simp [monthlyMatched] at hr
